import Mathlib

/-!
Shallow embedding of the historical-data retrieval engine of
`Historic_Crypto` (`HistoricalData.py`, class `HistoricalData`).

Modelling conventions:
* Instants are `Int` unix seconds.  The user-supplied `YYYY-MM-DD-HH-MM` dates
  parse to minute-precision instants; granularities are the seconds values of
  the `GRANULARITIES` table.
* `request_volume` in the source is `abs((end - start).total_seconds()) /
  self.granularity` (a Python float), passed as the `periods` argument of
  `pd.date_range(start, end, periods)`; pandas truncates a float `periods` to
  `int`, and `len(times)` equals that integer.  Hence the embedded
  `request_volume` is the truncated quotient `|e - s| / g` (Nat division).
* A DataFrame cell is either the integer-valued payload as parsed from JSON
  (`Cell.obj`) or the same value after `astype(float)` (`Cell.flt`).
* `pd.DataFrame.drop_duplicates(subset=None, keep='first')` after
  `set_index("time")` compares the five value columns only (the index is not
  part of the duplicate key); it is embedded as `drop_duplicates` below.
* `sort_index(ascending=True)` is embedded as a stable insertion sort by
  timestamp.
* Network responses are an oracle `resp : Nat → Response` giving the response
  to the i-th request issued by `retrieve_data`.
-/

namespace HistoricCrypto

/-- The granularity table `GRANULARITIES` (HistoricalData.py lines 12-21):
supported candle durations in seconds. -/
def GRANULARITIES : List Nat := [60, 300, 900, 1800, 3600, 7200, 21600, 86400]

/-- Status codes the source treats as success (`[200, 201, 202, 203, 204]`). -/
def SUCCESS_CODES : List Nat := [200, 201, 202, 203, 204]

/-- One DataFrame cell.  `obj n` is the integer-valued payload as parsed from
the JSON response; `flt n` is the same value after the `astype(float)` cast
performed at the end of the multi-chunk path (line 205). -/
inductive Cell
  | obj (n : Int)
  | flt (n : Int)
deriving DecidableEq, Repr

/-- One candle row of the response: `[time, low, high, open, close, volume]`.
`time` is kept as an instant (the source converts it with
`pd.to_datetime(..., unit='s')` and then uses it as the index). -/
structure Row where
  time : Int
  low : Cell
  high : Cell
  openP : Cell
  close : Cell
  volume : Cell
deriving DecidableEq, Repr

/-- The five value columns of a row, the duplicate key used by
`drop_duplicates(subset=None)` once `time` has become the index. -/
def Row.vals (r : Row) : Cell × Cell × Cell × Cell × Cell :=
  (r.low, r.high, r.openP, r.close, r.volume)

/-- `astype(float)` on one cell. -/
def Cell.astypeFloat : Cell → Cell
  | .obj n => .flt n
  | .flt n => .flt n

/-- `astype(float)` on one row: the value columns are cast, the time index is
not a column and is unchanged. -/
def Row.astypeFloat (r : Row) : Row :=
  ⟨r.time, r.low.astypeFloat, r.high.astypeFloat, r.openP.astypeFloat,
    r.close.astypeFloat, r.volume.astypeFloat⟩

/-- One HTTP response to a candles request: a status code and the parsed
`response.json()['candles']` array. -/
structure Response where
  status : Nat
  candles : List Row
deriving DecidableEq

/-- The errors `retrieve_data` can raise.  `httpError` is
`requests.HTTPError` (status 400/401/404), `connectionError` is
`requests.ConnectionError` (status 403/500/501), `requestException` is
`requests.RequestException` (any other non-success status), and
`columnsMismatch` is the pandas `ValueError` raised by
`data.columns = [...]` when `data` has no columns (empty DataFrame). -/
inductive RetrievalError
  | httpError
  | connectionError
  | requestException
  | columnsMismatch
deriving DecidableEq, Repr

instance {ε α : Type _} [DecidableEq ε] [DecidableEq α] : DecidableEq (Except ε α) :=
  fun x y =>
  match x, y with
  | .error a, .error b => decidable_of_iff (a = b) (by simp)
  | .ok a, .ok b => decidable_of_iff (a = b) (by simp)
  | .error _, .ok _ => isFalse (by simp)
  | .ok _, .error _ => isFalse (by simp)

/-- Status-code classification of lines 137/151/155/159 (and 177/187/191/195):
`none` on success, otherwise the raised error kind. -/
def classifyStatus (st : Nat) : Option RetrievalError :=
  if st ∈ SUCCESS_CODES then none
  else if st ∈ [400, 401, 404] then some .httpError
  else if st ∈ [403, 500, 501] then some .connectionError
  else some .requestException

/-- Lines 126-128: `request_volume = abs((end-start).total_seconds()) /
granularity` followed by `request_volume = len(pd.date_range(start, end,
request_volume))`.  The float `periods` is truncated to int by pandas and
`len` of the resulting range equals it, so the computed volume is the
truncated quotient. -/
def request_volume (s e : Int) (g : Nat) : Nat := (e - s).natAbs / g

/-- Line 166: the multi-chunk loop runs `range(int(request_volume / 300) + 1)`
iterations. -/
def numChunks (rv : Nat) : Nat := rv / 300 + 1

/-- The observable parameters of one candles request URL: its `start`, `end`
and `limit` query fields. -/
structure Request where
  rstart : Int
  rend : Int
  limit : Nat
deriving DecidableEq, Repr

/-- Lines 167-173: the i-th chunk request of the multi-chunk path.
`provisional_start = start + i*(granularity*300)`, `provisional_end = start +
(i+1)*(granularity*300)`, and the URL's `limit` is the overall
`request_volume`. -/
def chunkRequest (s : Int) (g rv : Nat) (i : Nat) : Request :=
  ⟨s + (i : Int) * ((g : Int) * 300), s + ((i : Int) + 1) * ((g : Int) * 300), rv⟩

/-- Line 144: `data['time'].between(start, end)` — inclusive on both ends. -/
def inWindow (s e : Int) (r : Row) : Bool :=
  decide (s ≤ r.time) && decide (r.time ≤ e)

/-- Comparison by timestamp, the sort key of `sort_index`. -/
def timeLE (a b : Row) : Prop := a.time ≤ b.time

instance : DecidableRel timeLE := fun a b => Int.decLe a.time b.time

instance : IsTotal Row timeLE := ⟨fun a b => Int.le_total a.time b.time⟩

instance : IsTrans Row timeLE := ⟨fun _ _ _ hab hbc => le_trans hab hbc⟩

/-- `sort_index(ascending=True)` (lines 146/203), embedded as a stable sort by
timestamp. -/
def sortRows (l : List Row) : List Row := l.insertionSort timeLE

/-- The duplicate key type of `drop_duplicates`: the tuple of value columns. -/
abbrev ValKey := Cell × Cell × Cell × Cell × Cell

/-- Worker of `drop_duplicates(subset=None, keep='first')`: keep a row iff its
value-column tuple has not been seen before. -/
def dropDupAux (seen : List ValKey) : List Row → List Row
  | [] => []
  | r :: rs =>
    if r.vals ∈ seen then dropDupAux seen rs
    else r :: dropDupAux (r.vals :: seen) rs

/-- Lines 147/204: `data.drop_duplicates(subset=None, keep='first')` with
`time` as index — the duplicate key is the five value columns, not the
timestamp. -/
def drop_duplicates (l : List Row) : List Row := dropDupAux [] l

/-- The assembly pipeline shared by both paths (lines 141-147 and 199-204):
relabel columns (raises on an empty frame, which has zero columns), convert
`time`, restrict to `[start, end]` inclusive, set `time` as index, sort
ascending by index, drop duplicate value rows keeping the first. -/
def assemble (s e : Int) (rows : List Row) : Except RetrievalError (List Row) :=
  if rows.isEmpty then .error .columnsMismatch
  else .ok (drop_duplicates (sortRows (rows.filter (inWindow s e))))

/-- The multi-chunk loop of lines 166-198.  Arguments: response oracle, overall
start, granularity, overall request volume, current chunk index, remaining
iteration count, accumulated rows.  Returns the loop outcome (accumulated rows
or the first raised error) paired with the list of requests issued. -/
def chunkLoopAux (resp : Nat → Response) (s : Int) (g rv : Nat) :
    Nat → Nat → List Row → Except RetrievalError (List Row) × List Request
  | _, 0, acc => (.ok acc, [])
  | i, rem + 1, acc =>
    match classifyStatus (resp i).status with
    | some err => (.error err, [chunkRequest s g rv i])
    | none =>
      let acc2 := if (resp i).candles.isEmpty then acc else acc ++ (resp i).candles
      let out := chunkLoopAux resp s g rv (i + 1) rem acc2
      (out.1, chunkRequest s g rv i :: out.2)

/-- `retrieve_data` (lines 117-205), restricted to its algorithmic content:
the ticker check and date formatting are collaborators.  Returns the result
(the assembled series or the first error raised) together with the list of
candles requests issued, in order. -/
def retrieve_run (s e : Int) (g : Nat) (resp : Nat → Response) :
    Except RetrievalError (List Row) × List Request :=
  let rv := request_volume s e g
  if rv ≤ 300 then
    (match classifyStatus (resp 0).status with
      | some err => .error err
      | none => assemble s e (resp 0).candles,
     [⟨s, e, rv⟩])
  else
    let out := chunkLoopAux resp s g rv 0 (numChunks rv) []
    (match out.1 with
      | .error err => .error err
      | .ok rows => (assemble s e rows).map (fun l => l.map Row.astypeFloat),
     out.2)

/-- The value returned (or error raised) by `retrieve_data`. -/
def retrieve_data (s e : Int) (g : Nat) (resp : Nat → Response) :
    Except RetrievalError (List Row) :=
  (retrieve_run s e g resp).1

/-- The `__init__` date validation (lines 60-66): with an explicit end date,
raise `ValueError` when `start_date >= end_date`; with `end_date=None` the end
defaults to the current instant and no comparison is made. -/
def init_date_check (startD : Int) (endD : Option Int) (now : Int) :
    Except Unit Int :=
  match endD with
  | none => .ok now
  | some e => if e ≤ startD then .error () else .ok e

/-- The duplicate keys already seen after `dropDupAux seen` has processed a
list (the accumulator `dropDupAux` threads through a concatenation). -/
def seenAfter (seen : List ValKey) : List Row → List ValKey
  | [] => seen
  | r :: rs => seenAfter (if r.vals ∈ seen then seen else r.vals :: seen) rs

/-- The concatenation of the candle arrays of chunks `i, i+1, ..., i+rem-1`. -/
def joinedCandles (resp : Nat → Response) : Nat → Nat → List Row
  | _, 0 => []
  | i, rem + 1 => (resp i).candles ++ joinedCandles resp (i + 1) rem

/-- Boolean test that a row carries the given timestamp. -/
def timeIs (t : Int) (r : Row) : Bool := decide (r.time = t)

/-- Worker for the spec-described deduplication: keep a row iff its timestamp
has not been seen before. -/
def dedupTimeAux (seen : List Int) : List Row → List Row
  | [] => []
  | r :: rs =>
    if r.time ∈ seen then dedupTimeAux seen rs
    else r :: dedupTimeAux (r.time :: seen) rs

/-- The Series Assembler as the spec describes it (for comparison with
`assemble`): concatenate, discard records outside `[start, end]`, remove
duplicate timestamps keeping the first occurrence in chunk order, then sort
ascending by timestamp. -/
def specAssemble (s e : Int) (rows : List Row) : List Row :=
  sortRows (dedupTimeAux [] (rows.filter (inWindow s e)))

/-! ### Helper lemmas about the chunk loop -/

theorem chunkLoopAux_requests_cons (resp : Nat → Response) (s : Int) (g rv i rem : Nat)
    (acc : List Row) (h : 0 < rem) :
    ∃ tl, (chunkLoopAux resp s g rv i rem acc).2 = chunkRequest s g rv i :: tl := by
  obtain ⟨rem', rfl⟩ : ∃ rem', rem = rem' + 1 := ⟨rem - 1, by omega⟩
  simp only [chunkLoopAux]
  cases hc : classifyStatus (resp i).status with
  | some err => exact ⟨[], rfl⟩
  | none => exact ⟨_, rfl⟩

theorem multi_requests_ne (s e : Int) (g : Nat) (resp : Nat → Response)
    (h : 300 < request_volume s e g) :
    (chunkLoopAux resp s g (request_volume s e g) 0
        (numChunks (request_volume s e g)) []).2
      ≠ [⟨s, e, request_volume s e g⟩] := by
  obtain ⟨tl, htl⟩ := chunkLoopAux_requests_cons resp s g (request_volume s e g) 0
      (numChunks (request_volume s e g)) [] (by simp [numChunks])
  rw [htl]
  intro hbad
  have h1 : chunkRequest s g (request_volume s e g) 0 = ⟨s, e, request_volume s e g⟩ :=
    (List.cons.injEq _ _ _ _ ▸ hbad).1
  have h2 : s + ((0 : Int) + 1) * ((g : Int) * 300) = e := congrArg Request.rend h1
  have he : e = s + (g : Int) * 300 := by rw [← h2]; ring
  have hle : request_volume s e g ≤ 300 := by
    subst he
    unfold request_volume
    have h3 : s + (g : Int) * 300 - s = (g : Int) * 300 := by ring
    rw [h3]
    have h4 : ((g : Int) * 300).natAbs = g * 300 := by
      simp [Int.natAbs_mul]
    rw [h4]
    rcases Nat.eq_zero_or_pos g with hg | hg
    · simp [hg]
    · rw [Nat.mul_comm, Nat.mul_div_cancel _ hg]
  omega

theorem append_of_isEmpty_branch (acc l : List Row) :
    (if l.isEmpty then acc else acc ++ l) = acc ++ l := by
  cases l <;> simp

theorem chunkLoopAux_all_ok (resp : Nat → Response) (s : Int) (g rv : Nat) :
    ∀ (rem i : Nat) (acc : List Row),
      (∀ k, k < rem → classifyStatus (resp (i + k)).status = none) →
      chunkLoopAux resp s g rv i rem acc
        = (.ok (acc ++ joinedCandles resp i rem),
           (List.range rem).map (fun k => chunkRequest s g rv (i + k))) := by
  intro rem
  induction rem with
  | zero => intro i acc _; simp [chunkLoopAux, joinedCandles]
  | succ rem ih =>
    intro i acc h
    have h0 : classifyStatus (resp i).status = none := by simpa using h 0 (Nat.succ_pos rem)
    have hrest : ∀ k, k < rem → classifyStatus (resp (i + 1 + k)).status = none := by
      intro k hk
      have hx := h (k + 1) (by omega)
      have hy : i + (k + 1) = i + 1 + k := by omega
      rwa [hy] at hx
    simp only [chunkLoopAux, h0]
    rw [append_of_isEmpty_branch, ih (i + 1) (acc ++ (resp i).candles) hrest]
    have hfun : (fun k => chunkRequest s g rv (i + 1 + k))
        = fun k => chunkRequest s g rv (i + (k + 1)) := by
      funext k
      rw [show i + 1 + k = i + (k + 1) by omega]
    rw [List.range_succ_eq_map, List.map_cons, List.map_map]
    refine congrArg₂ Prod.mk ?_ ?_
    · simp [joinedCandles, List.append_assoc]
    · rw [hfun]
      rfl

theorem chunkLoopAux_first_fail (resp : Nat → Response) (s : Int) (g rv : Nat)
    (err : RetrievalError) :
    ∀ (j rem i : Nat) (acc : List Row), j < rem →
      (∀ k, k < j → classifyStatus (resp (i + k)).status = none) →
      classifyStatus (resp (i + j)).status = some err →
      chunkLoopAux resp s g rv i rem acc
        = (.error err, (List.range (j + 1)).map (fun k => chunkRequest s g rv (i + k))) := by
  intro j
  induction j with
  | zero =>
    intro rem i acc hlt _ hfail
    obtain ⟨rem', rfl⟩ : ∃ r, rem = r + 1 := ⟨rem - 1, by omega⟩
    have hfail' : classifyStatus (resp i).status = some err := by simpa using hfail
    simp only [chunkLoopAux, hfail']
    rfl
  | succ j ih =>
    intro rem i acc hlt hok hfail
    obtain ⟨rem', rfl⟩ : ∃ r, rem = r + 1 := ⟨rem - 1, by omega⟩
    have h0 : classifyStatus (resp i).status = none := by simpa using hok 0 (by omega)
    have hok' : ∀ k, k < j → classifyStatus (resp (i + 1 + k)).status = none := by
      intro k hk
      have hx := hok (k + 1) (by omega)
      rwa [show i + (k + 1) = i + 1 + k by omega] at hx
    have hfail' : classifyStatus (resp (i + 1 + j)).status = some err := by
      rwa [show i + (j + 1) = i + 1 + j by omega] at hfail
    simp only [chunkLoopAux, h0]
    rw [append_of_isEmpty_branch,
      ih rem' (i + 1) (acc ++ (resp i).candles) (by omega) hok' hfail']
    have hfun : (fun k => chunkRequest s g rv (i + 1 + k))
        = fun k => chunkRequest s g rv (i + (k + 1)) := by
      funext k
      rw [show i + 1 + k = i + (k + 1) by omega]
    dsimp only
    rw [hfun]
    conv_rhs => rw [List.range_succ_eq_map, List.map_cons, List.map_map]
    rfl

theorem joinedCandles_ne_nil (resp : Nat → Response) :
    ∀ (rem i k : Nat), k < rem → (resp (i + k)).candles ≠ [] →
      joinedCandles resp i rem ≠ [] := by
  intro rem
  induction rem with
  | zero => intro i k hk; omega
  | succ rem ih =>
    intro i k hk hne heq
    rw [joinedCandles] at heq
    rw [List.append_eq_nil] at heq
    cases k with
    | zero => exact hne (by simpa using heq.1)
    | succ k' =>
      refine ih (i + 1) k' (by omega) ?_ heq.2
      rwa [show i + 1 + k' = i + (k' + 1) by omega]

theorem chunkLoopAux_limits (resp : Nat → Response) (s : Int) (g rv : Nat) :
    ∀ (rem i : Nat) (acc : List Row) (req : Request),
      req ∈ (chunkLoopAux resp s g rv i rem acc).2 → req.limit = rv := by
  intro rem
  induction rem with
  | zero => intro i acc req h; simp [chunkLoopAux] at h
  | succ rem ih =>
    intro i acc req h
    simp only [chunkLoopAux] at h
    cases hc : classifyStatus (resp i).status with
    | some err =>
      rw [hc] at h
      simp only [List.mem_singleton] at h
      subst h
      rfl
    | none =>
      rw [hc] at h
      simp only [List.mem_cons] at h
      rcases h with h | h
      · subst h; rfl
      · exact ih (i + 1) _ req h

theorem classifyStatus_of_not_success (st : Nat) (h : st ∉ SUCCESS_CODES) :
    classifyStatus st
      = some (if st ∈ [400, 401, 404] then .httpError
          else if st ∈ [403, 500, 501] then .connectionError
          else .requestException) := by
  simp only [classifyStatus, if_neg h]
  split_ifs <;> rfl

/-! ### Claim theorems -/

/-- C2 (counterexample): the claim says the planner computes `expected_count =
ceil(|end - start| / granularity)` and issues a single whole-window request iff
that count is at most 300.  At start 0, end 1081800, granularity 3600 the
ceiling is 301 > 300, yet the code issues exactly one whole-window request,
because `pd.date_range` truncates the float quotient 300.5 to 300. -/
theorem C2_counterexample :
    (retrieve_run 0 1081800 3600
        (fun _ => ⟨200, [⟨0, .obj 1, .obj 1, .obj 1, .obj 1, .obj 1⟩]⟩)).2
      = [⟨0, 1081800, 300⟩]
    ∧ (1081800 + 3600 - 1) / 3600 = 301 ∧ ¬ ((301 : Nat) ≤ 300) := by
  refine ⟨by decide, by decide, by decide⟩

/-- C2 (amended): the planner computes `request_volume = ⌊|end - start| /
granularity⌋` (pandas truncates the float `periods`), and exactly one request
— the single request spanning the whole window with limit `request_volume` —
is issued iff `request_volume ≤ 300`. -/
theorem C2_planner (s e : Int) (g : Nat) (resp : Nat → Response) :
    (retrieve_run s e g resp).2 = [⟨s, e, request_volume s e g⟩]
      ↔ request_volume s e g ≤ 300 := by
  by_cases h : request_volume s e g ≤ 300
  · simp [retrieve_run, h]
  · simp only [retrieve_run, if_neg h]
    constructor
    · intro hbad
      exact absurd hbad (multi_requests_ne s e g resp (by omega))
    · intro hc
      exact absurd hc h

/-- C7 (counterexample): the claim says the planner (`retrieve_data`) itself
independently rejects `start == end` before computing counts.  In fact at
start = end = 2 the code computes `request_volume = 0`, issues one request
(with limit 0) and returns a Series, raising no error. -/
theorem C7_counterexample :
    (retrieve_run 2 2 60
        (fun _ => ⟨200, [⟨2, .obj 1, .obj 1, .obj 1, .obj 1, .obj 1⟩]⟩)).1
      = .ok [⟨2, .obj 1, .obj 1, .obj 1, .obj 1, .obj 1⟩]
    ∧ (retrieve_run 2 2 60
        (fun _ => ⟨200, [⟨2, .obj 1, .obj 1, .obj 1, .obj 1, .obj 1⟩]⟩)).2
      = [⟨2, 2, 0⟩] := by
  refine ⟨by decide, by decide⟩

/-- C7 (amended): when an explicit end date is supplied, `__init__` raises a
validation error for start ≥ end before any network call; `retrieve_data`
itself performs no independent start = end check — at start = end it computes
`request_volume = 0` and issues a single request with limit 0. -/
theorem C7_validation :
    (∀ sD eD now : Int, eD ≤ sD → init_date_check sD (some eD) now = .error ())
    ∧ ∀ (s : Int) (g : Nat) (resp : Nat → Response),
        (retrieve_run s s g resp).2 = [⟨s, s, 0⟩] := by
  constructor
  · intro sD eD now h
    simp [init_date_check, h]
  · intro s g resp
    have h : request_volume s s g = 0 := by simp [request_volume]
    simp [retrieve_run, h]

/-- Witness for C7 (amended) at start date 3, end date 2 and at a degenerate
window start = end = 9. -/
theorem C7_validation_witness :
    ((2 : Int) ≤ 3 ∧ init_date_check 3 (some 2) 0 = .error ())
    ∧ (retrieve_run 9 9 60 (fun _ => ⟨404, []⟩)).2 = [⟨9, 9, 0⟩] :=
  ⟨⟨by decide, C7_validation.1 3 2 0 (by decide)⟩, C7_validation.2 9 60 _⟩

/-- C8 (counterexample): the claim says the limit sent to the remote API never
exceeds 300.  In the multi-chunk path every chunk URL carries
`limit=request_volume`, the overall volume: at start 0, end 36000, granularity
60 the first issued request already has limit 600 > 300. -/
theorem C8_counterexample :
    (retrieve_run 0 36000 60 (fun _ => ⟨404, []⟩)).2 = [⟨0, 18000, 600⟩]
    ∧ ¬ ((600 : Nat) ≤ 300) := by
  refine ⟨by decide, by decide⟩

/-- C1 (counterexample): the claim says the last sub-window is truncated so as
not to exceed the original end instant.  At start 0, end 36000, granularity 60
(request volume 600) the code issues three chunk requests and the last one
spans [36000, 54000], far beyond the requested end 36000; no truncation is
performed. -/
theorem C1_counterexample :
    (retrieve_run 0 36000 60
        (fun _ => ⟨200, [⟨5, .obj 1, .obj 1, .obj 1, .obj 1, .obj 1⟩]⟩)).2
      = [⟨0, 18000, 600⟩, ⟨18000, 36000, 600⟩, ⟨36000, 54000, 600⟩]
    ∧ (36000 : Int) < 54000 := by
  refine ⟨by decide, by decide⟩

/-- C3 (counterexample): the claim says output timestamps are strictly
increasing with no duplicates.  Two candles sharing timestamp 5 but with
different value columns both survive `drop_duplicates` (whose duplicate key is
the value columns, not the index), so the returned Series has timestamp 5
twice. -/
theorem C3_counterexample :
    retrieve_data 0 10 60
        (fun _ => ⟨200, [⟨5, .obj 1, .obj 1, .obj 1, .obj 1, .obj 1⟩,
                          ⟨5, .obj 2, .obj 2, .obj 2, .obj 2, .obj 2⟩]⟩)
      = .ok [⟨5, .obj 1, .obj 1, .obj 1, .obj 1, .obj 1⟩,
              ⟨5, .obj 2, .obj 2, .obj 2, .obj 2, .obj 2⟩]
    ∧ ¬ ([⟨5, .obj 1, .obj 1, .obj 1, .obj 1, .obj 1⟩,
           ⟨5, .obj 2, .obj 2, .obj 2, .obj 2, .obj 2⟩] : List Row).Pairwise
          (fun a b => a.time < b.time) := by
  refine ⟨by decide, by decide⟩

/-- C4 (counterexample): the claim says the assembler removes records with
duplicate timestamps (keeping the first in chunk order) and then sorts.  The
code instead deduplicates on the five value columns after setting `time` as
the index: two candles at distinct timestamps 1 and 2 with identical value
columns collapse to one record, while the spec-described pipeline keeps
both. -/
theorem C4_counterexample :
    assemble 0 10 [⟨1, .obj 9, .obj 9, .obj 9, .obj 9, .obj 9⟩,
                    ⟨2, .obj 9, .obj 9, .obj 9, .obj 9, .obj 9⟩]
      = .ok [⟨1, .obj 9, .obj 9, .obj 9, .obj 9, .obj 9⟩]
    ∧ specAssemble 0 10 [⟨1, .obj 9, .obj 9, .obj 9, .obj 9, .obj 9⟩,
                          ⟨2, .obj 9, .obj 9, .obj 9, .obj 9, .obj 9⟩]
      = [⟨1, .obj 9, .obj 9, .obj 9, .obj 9, .obj 9⟩,
          ⟨2, .obj 9, .obj 9, .obj 9, .obj 9, .obj 9⟩]
    ∧ assemble 0 10 [⟨1, .obj 9, .obj 9, .obj 9, .obj 9, .obj 9⟩,
                      ⟨2, .obj 9, .obj 9, .obj 9, .obj 9, .obj 9⟩]
      ≠ .ok (specAssemble 0 10 [⟨1, .obj 9, .obj 9, .obj 9, .obj 9, .obj 9⟩,
                                 ⟨2, .obj 9, .obj 9, .obj 9, .obj 9, .obj 9⟩]) := by
  refine ⟨by decide, by decide, by decide⟩

/-- C6 (counterexample): the claim says a retrieval whose chunks succeed with
empty candle arrays still returns a Series rather than raising.  When every
chunk is empty the accumulated DataFrame has no columns and the final
`data.columns = [...]` relabeling raises a `ValueError`: at start 0, end
90300, granularity 300 both chunks succeed with `200` and empty arrays, and
the retrieval fails. -/
theorem C6_counterexample :
    classifyStatus 200 = none
    ∧ (retrieve_run 0 90300 300 (fun _ => ⟨200, []⟩)).1
      = .error .columnsMismatch := by
  refine ⟨by decide, by decide⟩

/-- C9 (counterexample): the claim says duplicate timestamps collapse to one
record when re-assembling doubled chunk output.  Doubling two candles that
share timestamp 7 but differ in value columns yields a Series that still
contains timestamp 7 twice: only fully identical value rows collapse. -/
theorem C9_counterexample :
    assemble 0 20 ([⟨7, .obj 3, .obj 3, .obj 3, .obj 3, .obj 3⟩,
                     ⟨7, .obj 4, .obj 4, .obj 4, .obj 4, .obj 4⟩]
                    ++ [⟨7, .obj 3, .obj 3, .obj 3, .obj 3, .obj 3⟩,
                         ⟨7, .obj 4, .obj 4, .obj 4, .obj 4, .obj 4⟩])
      = .ok [⟨7, .obj 3, .obj 3, .obj 3, .obj 3, .obj 3⟩,
              ⟨7, .obj 4, .obj 4, .obj 4, .obj 4, .obj 4⟩]
    ∧ ¬ ([⟨7, .obj 3, .obj 3, .obj 3, .obj 3, .obj 3⟩,
           ⟨7, .obj 4, .obj 4, .obj 4, .obj 4, .obj 4⟩] : List Row).Pairwise
          (fun a b => a.time ≠ b.time) := by
  refine ⟨by decide, by decide⟩

/-- C10: the single-chunk and multi-chunk paths are not equivalent on the same
underlying data.  A candle at time 60 retrieved through the single-chunk path
(window of 10 candles) comes back with its parsed integer cells, while the
same candle retrieved through the multi-chunk path (window of 600 candles,
chunks 2 and 3 empty) comes back with every value column cast to float by
`astype(float)`; the two Series differ. -/
theorem C10_dtype_divergence :
    retrieve_data 0 600 60
        (fun _ => ⟨200, [⟨60, .obj 9, .obj 8, .obj 7, .obj 6, .obj 5⟩]⟩)
      = .ok [⟨60, .obj 9, .obj 8, .obj 7, .obj 6, .obj 5⟩]
    ∧ retrieve_data 0 36000 60
        (fun i => if i = 0
          then ⟨200, [⟨60, .obj 9, .obj 8, .obj 7, .obj 6, .obj 5⟩]⟩
          else ⟨200, []⟩)
      = .ok [⟨60, .flt 9, .flt 8, .flt 7, .flt 6, .flt 5⟩]
    ∧ ([⟨60, .obj 9, .obj 8, .obj 7, .obj 6, .obj 5⟩] : List Row)
      ≠ [⟨60, .flt 9, .flt 8, .flt 7, .flt 6, .flt 5⟩] := by
  refine ⟨by decide, by decide, by decide⟩

/-- C1 (amended): when the computed request volume exceeds 300 and every chunk
response is a success, `retrieve_data` issues exactly
`floor(request_volume / 300) + 1` chunk requests, in ascending order: chunk i
spans `[start + i*300*g, start + (i+1)*300*g]`; every sub-window (the last
included, which is not truncated and may extend past the requested end) spans
exactly `300 * granularity` seconds, and consecutive sub-windows are
contiguous with no gaps or overlaps. -/
theorem C1_chunk_plan (s e : Int) (g : Nat) (resp : Nat → Response)
    (hrv : 300 < request_volume s e g)
    (hok : ∀ i, classifyStatus (resp i).status = none) :
    (retrieve_run s e g resp).2
        = (List.range (numChunks (request_volume s e g))).map
            (chunkRequest s g (request_volume s e g))
      ∧ (∀ i : Nat, (chunkRequest s g (request_volume s e g) i).rend
            - (chunkRequest s g (request_volume s e g) i).rstart = (g : Int) * 300)
      ∧ ∀ i : Nat, (chunkRequest s g (request_volume s e g) (i + 1)).rstart
            = (chunkRequest s g (request_volume s e g) i).rend := by
  refine ⟨?_, ?_, ?_⟩
  · simp only [retrieve_run, if_neg (not_le.mpr hrv)]
    rw [chunkLoopAux_all_ok resp s g _ (numChunks _) 0 [] (fun k _ => hok (0 + k))]
    simp
  · intro i
    simp only [chunkRequest]
    ring
  · intro i
    simp only [chunkRequest]
    push_cast
    ring

/-- Witness for C1 (amended): start 0, end 21660, granularity 60 gives request
volume 361 > 300 and two chunk requests. -/
theorem C1_chunk_plan_witness :
    300 < request_volume 0 21660 60
    ∧ (retrieve_run 0 21660 60 (fun _ => ⟨200, []⟩)).2
        = [chunkRequest 0 60 361 0, chunkRequest 0 60 361 1] := by
  refine ⟨by decide, ?_⟩
  have h := C1_chunk_plan 0 21660 60 (fun _ => ⟨200, []⟩) (by decide) (fun _ => rfl)
  rw [h.1]
  decide

/-- C5: in a multi-chunk retrieval, if the first j chunk responses succeed and
the response to chunk j carries a non-success status, the whole retrieval
aborts at chunk j with the error kind determined by the status-code family —
400/401/404 raise `requests.HTTPError`, 403/500/501 raise
`requests.ConnectionError`, any other non-success status raises
`requests.RequestException` — exactly j+1 requests are issued (no retry), and
the result is the error, not a Series: previously fetched chunk data is
discarded. -/
theorem C5_error_classification (s e : Int) (g : Nat) (resp : Nat → Response) (j : Nat)
    (hrv : 300 < request_volume s e g)
    (hj : j < numChunks (request_volume s e g))
    (hok : ∀ i, i < j → classifyStatus (resp i).status = none)
    (hfail : (resp j).status ∉ SUCCESS_CODES) :
    (retrieve_run s e g resp).1
        = .error (if (resp j).status ∈ [400, 401, 404] then .httpError
            else if (resp j).status ∈ [403, 500, 501] then .connectionError
            else .requestException)
      ∧ (retrieve_run s e g resp).2.length = j + 1 := by
  have hcl := classifyStatus_of_not_success _ hfail
  have hloop := chunkLoopAux_first_fail resp s g (request_volume s e g) _ j
      (numChunks (request_volume s e g)) 0 [] hj
      (fun k hk => by rw [Nat.zero_add]; exact hok k hk)
      (by rw [Nat.zero_add]; exact hcl)
  constructor
  · simp only [retrieve_run, if_neg (not_le.mpr hrv)]
    rw [hloop]
  · simp only [retrieve_run, if_neg (not_le.mpr hrv)]
    rw [hloop]
    simp

/-- Witness for C5: start 0, end 36000, granularity 60 (volume 600, three
chunks); chunk 0 succeeds, chunk 1 answers 404: the retrieval aborts with the
`HTTPError` kind after exactly two requests. -/
theorem C5_error_classification_witness :
    (300 < request_volume 0 36000 60
      ∧ 1 < numChunks (request_volume 0 36000 60)
      ∧ (404 : Nat) ∉ SUCCESS_CODES)
    ∧ (retrieve_run 0 36000 60
        (fun i => if i = 0
          then ⟨200, [⟨5, .obj 1, .obj 1, .obj 1, .obj 1, .obj 1⟩]⟩
          else ⟨404, []⟩)).1 = .error .httpError
    ∧ (retrieve_run 0 36000 60
        (fun i => if i = 0
          then ⟨200, [⟨5, .obj 1, .obj 1, .obj 1, .obj 1, .obj 1⟩]⟩
          else ⟨404, []⟩)).2.length = 2 := by
  have h := C5_error_classification 0 36000 60
      (fun i => if i = 0
        then ⟨200, [⟨5, .obj 1, .obj 1, .obj 1, .obj 1, .obj 1⟩]⟩
        else ⟨404, []⟩) 1
      (by decide) (by decide)
      (by
        intro i hi
        have h0 : i = 0 := by omega
        subst h0
        decide)
      (by decide)
  refine ⟨⟨by decide, by decide, by decide⟩, ?_, h.2⟩
  rw [h.1]
  decide

/-- C6 (amended): in a multi-chunk retrieval where every chunk succeeds, a
chunk whose candle array is empty does not make the retrieval fail: the loop
continues (every chunk is still requested) and the empty chunk contributes
zero records; provided at least one chunk returns a non-empty array, the
retrieval returns a Series. -/
theorem C6_empty_chunk (s e : Int) (g : Nat) (resp : Nat → Response) (j : Nat)
    (hrv : 300 < request_volume s e g)
    (hok : ∀ i, i < numChunks (request_volume s e g) →
      classifyStatus (resp i).status = none)
    (_hj : j < numChunks (request_volume s e g))
    (_hempty : (resp j).candles = [])
    (hsome : ∃ i, i < numChunks (request_volume s e g) ∧ (resp i).candles ≠ []) :
    (∃ out, (retrieve_run s e g resp).1 = .ok out)
    ∧ (retrieve_run s e g resp).2.length = numChunks (request_volume s e g) := by
  have hloop := chunkLoopAux_all_ok resp s g (request_volume s e g)
      (numChunks (request_volume s e g)) 0 [] (fun k hk => by simpa using hok k hk)
  obtain ⟨i0, hi0, hne⟩ := hsome
  have hjoin : joinedCandles resp 0 (numChunks (request_volume s e g)) ≠ [] :=
    joinedCandles_ne_nil resp _ 0 i0 hi0 (by simpa using hne)
  constructor
  · simp only [retrieve_run, if_neg (not_le.mpr hrv)]
    rw [hloop]
    dsimp only
    have hassemble : assemble s e (joinedCandles resp 0 (numChunks (request_volume s e g)))
        = .ok (drop_duplicates (sortRows
            ((joinedCandles resp 0 (numChunks (request_volume s e g))).filter
              (inWindow s e)))) := by
      unfold assemble
      rw [if_neg (by simpa [List.isEmpty_iff] using hjoin)]
    rw [List.nil_append, hassemble]
    exact ⟨_, rfl⟩
  · simp only [retrieve_run, if_neg (not_le.mpr hrv)]
    rw [hloop]
    simp

/-- Witness for C6 (amended): start 0, end 90300, granularity 300 (volume 301,
two chunks); chunk 0 returns one candle, chunk 1 an empty array: the retrieval
returns a Series and both chunks were requested. -/
theorem C6_empty_chunk_witness :
    (300 < request_volume 0 90300 300 ∧ 1 < numChunks (request_volume 0 90300 300))
    ∧ (∃ out, (retrieve_run 0 90300 300
        (fun i => if i = 0
          then ⟨200, [⟨5, .obj 2, .obj 2, .obj 2, .obj 2, .obj 2⟩]⟩
          else ⟨200, []⟩)).1 = .ok out)
    ∧ (retrieve_run 0 90300 300
        (fun i => if i = 0
          then ⟨200, [⟨5, .obj 2, .obj 2, .obj 2, .obj 2, .obj 2⟩]⟩
          else ⟨200, []⟩)).2.length = numChunks (request_volume 0 90300 300) := by
  have h := C6_empty_chunk 0 90300 300
      (fun i => if i = 0
        then ⟨200, [⟨5, .obj 2, .obj 2, .obj 2, .obj 2, .obj 2⟩]⟩
        else ⟨200, []⟩) 1
      (by decide)
      (by
        intro i hi
        match i, hi with
        | 0, _ => decide
        | 1, _ => decide)
      (by decide) (by decide)
      ⟨0, by decide, by decide⟩
  exact ⟨⟨by decide, by decide⟩, h.1, h.2⟩

/-- C8 (amended): every request issued by `retrieve_data` — the single
whole-window request as well as every chunk request of the multi-chunk path —
carries a record limit equal to the overall computed `request_volume` (the
source interpolates `limit={request_volume}` into each URL); the limit is at
most 300 exactly when the retrieval is single-chunk. -/
theorem C8_limits (s e : Int) (g : Nat) (resp : Nat → Response) :
    ∀ req ∈ (retrieve_run s e g resp).2, req.limit = request_volume s e g := by
  intro req hreq
  by_cases h : request_volume s e g ≤ 300
  · simp only [retrieve_run, if_pos h] at hreq
    simp only [List.mem_singleton] at hreq
    subst hreq
    rfl
  · simp only [retrieve_run, if_neg h] at hreq
    exact chunkLoopAux_limits resp s g _ _ 0 [] req hreq

/-- Witness for C8 (amended): the first chunk request of the multi-chunk
retrieval over [0, 36000] at granularity 60 carries limit 600, the overall
request volume (and 600 > 300). -/
theorem C8_limits_witness :
    (⟨0, 18000, 600⟩ : Request) ∈ (retrieve_run 0 36000 60 (fun _ => ⟨500, []⟩)).2
    ∧ (Request.mk 0 18000 600).limit = request_volume 0 36000 60 :=
  ⟨by decide, C8_limits 0 36000 60 (fun _ => ⟨500, []⟩) ⟨0, 18000, 600⟩ (by decide)⟩

/-! ### Assembler lemmas -/

theorem dropDupAux_sublist : ∀ (l : List Row) (seen : List ValKey),
    List.Sublist (dropDupAux seen l) l := by
  intro l
  induction l with
  | nil => intro seen; simp [dropDupAux]
  | cons r rs ih =>
    intro seen
    simp only [dropDupAux]
    split
    · exact (ih seen).cons r
    · exact (ih (r.vals :: seen)).cons₂ r

theorem drop_duplicates_sublist (l : List Row) : List.Sublist (drop_duplicates l) l :=
  dropDupAux_sublist l []

theorem mem_sortRows {r : Row} {l : List Row} : r ∈ sortRows l ↔ r ∈ l :=
  (List.perm_insertionSort timeLE l).mem_iff

theorem sorted_sortRows (l : List Row) : List.Sorted timeLE (sortRows l) :=
  List.sorted_insertionSort timeLE l

theorem assemble_ok (s e : Int) (rows out : List Row)
    (h : assemble s e rows = .ok out) :
    out = drop_duplicates (sortRows (rows.filter (inWindow s e))) := by
  unfold assemble at h
  split at h
  · cases h
  · injection h with h2
    exact h2.symm

theorem assemble_ok_bounds (s e : Int) (rows out : List Row)
    (h : assemble s e rows = .ok out) :
    (∀ r ∈ out, s ≤ r.time ∧ r.time ≤ e) ∧ List.Sorted timeLE out := by
  have hout := assemble_ok s e rows out h
  subst hout
  constructor
  · intro r hr
    have h1 : r ∈ sortRows (rows.filter (inWindow s e)) :=
      (drop_duplicates_sublist _).subset hr
    have h2 : r ∈ rows.filter (inWindow s e) := mem_sortRows.mp h1
    have h3 : inWindow s e r = true := List.of_mem_filter h2
    simpa [inWindow, Bool.and_eq_true, decide_eq_true_eq] using h3
  · exact List.Pairwise.sublist (drop_duplicates_sublist _) (sorted_sortRows _)

theorem retrieve_data_ok_cases (s e : Int) (g : Nat) (resp : Nat → Response)
    (out : List Row) (h : retrieve_data s e g resp = .ok out) :
    (∃ rows, assemble s e rows = .ok out)
    ∨ ∃ rows mid, assemble s e rows = .ok mid ∧ out = mid.map Row.astypeFloat := by
  by_cases hrv : request_volume s e g ≤ 300
  · have hform : retrieve_data s e g resp
        = match classifyStatus (resp 0).status with
          | some err => .error err
          | none => assemble s e (resp 0).candles := by
      simp only [retrieve_data, retrieve_run, if_pos hrv]
    rw [hform] at h
    cases hc : classifyStatus (resp 0).status with
    | some err => rw [hc] at h; simp at h
    | none => rw [hc] at h; exact .inl ⟨_, h⟩
  · have hform : retrieve_data s e g resp
        = match (chunkLoopAux resp s g (request_volume s e g) 0
            (numChunks (request_volume s e g)) []).1 with
          | .error err => .error err
          | .ok rows => (assemble s e rows).map (fun l => l.map Row.astypeFloat) := by
      simp only [retrieve_data, retrieve_run, if_neg hrv]
    rw [hform] at h
    cases hl : (chunkLoopAux resp s g (request_volume s e g) 0
        (numChunks (request_volume s e g)) []).1 with
    | error err => rw [hl] at h; simp at h
    | ok rows =>
      simp only [hl] at h
      cases ha : assemble s e rows with
      | error err => rw [ha] at h; simp [Except.map] at h
      | ok mid =>
        rw [ha] at h
        simp only [Except.map] at h
        injection h with h2
        exact .inr ⟨rows, mid, ha, h2.symm⟩

theorem dropDupAux_vals_not_seen : ∀ (l : List Row) (seen : List ValKey) (q : Row),
    q ∈ dropDupAux seen l → q.vals ∉ seen := by
  intro l
  induction l with
  | nil => intro seen q h; simp [dropDupAux] at h
  | cons r rs ih =>
    intro seen q h
    simp only [dropDupAux] at h
    by_cases hc : r.vals ∈ seen
    · rw [if_pos hc] at h
      exact ih seen q h
    · rw [if_neg hc] at h
      rcases List.mem_cons.mp h with rfl | h2
      · exact hc
      · intro habs
        exact (ih _ q h2) (List.mem_cons_of_mem _ habs)

theorem dropDupAux_pairwise_vals : ∀ (l : List Row) (seen : List ValKey),
    (dropDupAux seen l).Pairwise (fun a b => a.vals ≠ b.vals) := by
  intro l
  induction l with
  | nil => intro seen; simp [dropDupAux]
  | cons r rs ih =>
    intro seen
    simp only [dropDupAux]
    split
    · exact ih seen
    · refine List.Pairwise.cons ?_ (ih _)
      intro b hb hbeq
      have hnb := dropDupAux_vals_not_seen rs (r.vals :: seen) b hb
      exact hnb (hbeq ▸ List.mem_cons_self _ _)

theorem dropDupAux_covers : ∀ (l : List Row) (seen : List ValKey) (r : Row),
    r ∈ l → r.vals ∈ seen ∨ ∃ q ∈ dropDupAux seen l, q.vals = r.vals := by
  intro l
  induction l with
  | nil => intro seen r h; cases h
  | cons x xs ih =>
    intro seen r h
    simp only [dropDupAux]
    rcases List.mem_cons.mp h with rfl | h2
    · by_cases hc : r.vals ∈ seen
      · exact .inl hc
      · rw [if_neg hc]
        exact .inr ⟨r, List.mem_cons_self _ _, rfl⟩
    · by_cases hc : x.vals ∈ seen
      · rw [if_pos hc]
        exact ih seen r h2
      · rw [if_neg hc]
        rcases ih (x.vals :: seen) r h2 with hmem | ⟨q, hq, hqv⟩
        · rcases List.mem_cons.mp hmem with heq | hseen
          · exact .inr ⟨x, List.mem_cons_self _ _, heq.symm⟩
          · exact .inl hseen
        · exact .inr ⟨q, List.mem_cons_of_mem _ hq, hqv⟩

/-- C3 (amended): every successful retrieval returns a Series whose records
all have timestamps inside `[window.start, window.end]` (inclusive) and whose
timestamps are sorted non-decreasing.  (Strict increase and uniqueness do not
hold in general — see the counterexample — because deduplication is keyed on
the value columns.) -/
theorem C3_series_bounds (s e : Int) (g : Nat) (resp : Nat → Response)
    (out : List Row) (h : retrieve_data s e g resp = .ok out) :
    (∀ r ∈ out, s ≤ r.time ∧ r.time ≤ e) ∧ List.Sorted timeLE out := by
  rcases retrieve_data_ok_cases s e g resp out h with ⟨rows, ha⟩ | ⟨rows, mid, ha, rfl⟩
  · exact assemble_ok_bounds s e rows out ha
  · obtain ⟨hb, hs⟩ := assemble_ok_bounds s e rows mid ha
    constructor
    · intro r hr
      obtain ⟨q, hq, rfl⟩ := List.mem_map.mp hr
      simpa [Row.astypeFloat] using hb q hq
    · exact List.pairwise_map.mpr hs

/-- Witness for C3 (amended): a successful single-chunk retrieval over window
[100, 700] whose two candles come back unsorted; the returned Series is
bounded by the window and sorted. -/
theorem C3_series_bounds_witness :
    (∀ r ∈ ([⟨200, .obj 2, .obj 2, .obj 2, .obj 2, .obj 2⟩,
              ⟨300, .obj 1, .obj 1, .obj 1, .obj 1, .obj 1⟩] : List Row),
        (100 : Int) ≤ r.time ∧ r.time ≤ 700)
    ∧ List.Sorted timeLE
        ([⟨200, .obj 2, .obj 2, .obj 2, .obj 2, .obj 2⟩,
          ⟨300, .obj 1, .obj 1, .obj 1, .obj 1, .obj 1⟩] : List Row) :=
  C3_series_bounds 100 700 60
    (fun _ => ⟨200, [⟨300, .obj 1, .obj 1, .obj 1, .obj 1, .obj 1⟩,
                      ⟨200, .obj 2, .obj 2, .obj 2, .obj 2, .obj 2⟩]⟩)
    [⟨200, .obj 2, .obj 2, .obj 2, .obj 2, .obj 2⟩,
     ⟨300, .obj 1, .obj 1, .obj 1, .obj 1, .obj 1⟩] (by decide)

/-- C4 (amended): on non-empty input the assembler returns the concatenated
records restricted to `[window.start, window.end]`, sorted ascending by
timestamp, with rows whose five value columns duplicate an earlier (in sorted
order) row removed: the output is a sublist of the sorted filtered input, no
two output rows share the same value columns, and every in-window input row's
value columns are represented in the output. -/
theorem C4_assembler (s e : Int) (rows out : List Row)
    (h : assemble s e rows = .ok out) :
    out.Sublist (sortRows (rows.filter (inWindow s e)))
    ∧ out.Pairwise (fun a b => a.vals ≠ b.vals)
    ∧ ∀ r ∈ rows, inWindow s e r = true → ∃ q ∈ out, q.vals = r.vals := by
  have hout := assemble_ok s e rows out h
  subst hout
  refine ⟨drop_duplicates_sublist _, dropDupAux_pairwise_vals _ _, ?_⟩
  intro r hr hw
  have h1 : r ∈ rows.filter (inWindow s e) := List.mem_filter.mpr ⟨hr, hw⟩
  have h2 : r ∈ sortRows (rows.filter (inWindow s e)) := mem_sortRows.mpr h1
  rcases dropDupAux_covers _ [] r h2 with habs | hex
  · cases habs
  · exact hex

/-- Witness for C4 (amended) on two candles received in reverse time order. -/
theorem C4_assembler_witness :
    ([⟨1, .obj 6, .obj 6, .obj 6, .obj 6, .obj 6⟩,
       ⟨2, .obj 5, .obj 5, .obj 5, .obj 5, .obj 5⟩] : List Row).Sublist
        (sortRows (([⟨2, .obj 5, .obj 5, .obj 5, .obj 5, .obj 5⟩,
                      ⟨1, .obj 6, .obj 6, .obj 6, .obj 6, .obj 6⟩] : List Row).filter
          (inWindow 0 10)))
    ∧ ([⟨1, .obj 6, .obj 6, .obj 6, .obj 6, .obj 6⟩,
         ⟨2, .obj 5, .obj 5, .obj 5, .obj 5, .obj 5⟩] : List Row).Pairwise
        (fun a b => a.vals ≠ b.vals)
    ∧ ∀ r ∈ ([⟨2, .obj 5, .obj 5, .obj 5, .obj 5, .obj 5⟩,
               ⟨1, .obj 6, .obj 6, .obj 6, .obj 6, .obj 6⟩] : List Row),
        inWindow 0 10 r = true →
        ∃ q ∈ ([⟨1, .obj 6, .obj 6, .obj 6, .obj 6, .obj 6⟩,
                 ⟨2, .obj 5, .obj 5, .obj 5, .obj 5, .obj 5⟩] : List Row),
          q.vals = r.vals :=
  C4_assembler 0 10
    [⟨2, .obj 5, .obj 5, .obj 5, .obj 5, .obj 5⟩,
     ⟨1, .obj 6, .obj 6, .obj 6, .obj 6, .obj 6⟩]
    [⟨1, .obj 6, .obj 6, .obj 6, .obj 6, .obj 6⟩,
     ⟨2, .obj 5, .obj 5, .obj 5, .obj 5, .obj 5⟩] (by decide)

/-! ### Stability of the sort and idempotence of the assembly -/

theorem filter_timeIs_sortRows (t : Int) : ∀ l : List Row,
    (sortRows l).filter (timeIs t) = l.filter (timeIs t) := by
  intro l
  induction l with
  | nil => rfl
  | cons x l ih =>
    have hsort : sortRows (x :: l) = (sortRows l).orderedInsert timeLE x := rfl
    rw [hsort, List.orderedInsert_eq_take_drop, List.filter_append]
    have htw : ((sortRows l).takeWhile fun b => ¬ timeLE x b).filter (timeIs t)
        = if x.time = t
          then []
          else ((sortRows l).takeWhile fun b => ¬ timeLE x b).filter (timeIs t) := by
      split
      · rw [List.filter_eq_nil_iff]
        intro a ha hat
        have h1 : ¬ timeLE x a := by
          have hb := List.mem_takeWhile_imp ha
          simpa using hb
        have h2 : a.time = t := by simpa [timeIs] using hat
        exact h1 (le_of_eq (by omega))
      · rfl
    by_cases hx : x.time = t
    · rw [if_pos hx] at htw
      rw [htw, List.nil_append,
        List.filter_cons_of_pos (by simp [timeIs, hx]),
        List.filter_cons_of_pos (by simp [timeIs, hx])]
      congr 1
      have hfull := congrArg (List.filter (timeIs t))
        (List.takeWhile_append_dropWhile (fun b => decide ¬(timeLE x b)) (sortRows l))
      rw [List.filter_append] at hfull
      rw [htw, List.nil_append] at hfull
      rw [hfull, ih]
    · rw [List.filter_cons_of_neg (by simp [timeIs, hx]),
        List.filter_cons_of_neg (by simp [timeIs, hx]),
        ← List.filter_append, List.takeWhile_append_dropWhile, ih]

theorem dropDupAux_append : ∀ (u v : List Row) (seen : List ValKey),
    dropDupAux seen (u ++ v) = dropDupAux seen u ++ dropDupAux (seenAfter seen u) v := by
  intro u
  induction u with
  | nil => intro v seen; rfl
  | cons r u ih =>
    intro v seen
    simp only [List.cons_append, dropDupAux, seenAfter, List.append_eq]
    by_cases hc : r.vals ∈ seen
    · rw [if_pos hc, if_pos hc, ih]
      rw [if_pos hc]
    · rw [if_neg hc, if_neg hc, ih]
      rw [if_neg hc]
      simp

theorem mem_seenAfter_mono : ∀ (u : List Row) (seen : List ValKey) (k : ValKey),
    k ∈ seen → k ∈ seenAfter seen u := by
  intro u
  induction u with
  | nil => intro seen k h; exact h
  | cons r u ih =>
    intro seen k h
    simp only [seenAfter]
    apply ih
    split
    · exact h
    · exact List.mem_cons_of_mem _ h

theorem vals_mem_seenAfter : ∀ (u : List Row) (seen : List ValKey) (x : Row),
    x ∈ u → x.vals ∈ seenAfter seen u := by
  intro u
  induction u with
  | nil => intro seen x h; cases h
  | cons r u ih =>
    intro seen x h
    rcases List.mem_cons.mp h with rfl | h2
    · simp only [seenAfter]
      apply mem_seenAfter_mono
      split
      · assumption
      · exact List.mem_cons_self _ _
    · simp only [seenAfter]
      exact ih _ x h2

theorem mem_seenAfter_elim : ∀ (u : List Row) (seen : List ValKey) (k : ValKey),
    k ∈ seenAfter seen u → k ∈ seen ∨ ∃ x ∈ u, x.vals = k := by
  intro u
  induction u with
  | nil => intro seen k h; exact .inl h
  | cons r u ih =>
    intro seen k h
    simp only [seenAfter] at h
    rcases ih _ k h with hin | ⟨x, hx, hv⟩
    · by_cases hc : r.vals ∈ seen
      · rw [if_pos hc] at hin
        exact .inl hin
      · rw [if_neg hc] at hin
        rcases List.mem_cons.mp hin with rfl | h2
        · exact .inr ⟨r, List.mem_cons_self _ _, rfl⟩
        · exact .inl h2
    · exact .inr ⟨x, List.mem_cons_of_mem _ hx, hv⟩

theorem dropDupAux_eq_nil : ∀ (v : List Row) (seen : List ValKey),
    (∀ x ∈ v, x.vals ∈ seen) → dropDupAux seen v = [] := by
  intro v
  induction v with
  | nil => intro seen _; rfl
  | cons r v ih =>
    intro seen h
    simp only [dropDupAux, if_pos (h r (List.mem_cons_self _ _))]
    exact ih seen (fun x hx => h x (List.mem_cons_of_mem _ hx))

theorem dropDupAux_congr : ∀ (l : List Row) (s₁ s₂ : List ValKey),
    (∀ k, k ∈ s₁ ↔ k ∈ s₂) → dropDupAux s₁ l = dropDupAux s₂ l := by
  intro l
  induction l with
  | nil => intro s₁ s₂ _; rfl
  | cons r l ih =>
    intro s₁ s₂ h
    simp only [dropDupAux]
    by_cases hc : r.vals ∈ s₁
    · rw [if_pos hc, if_pos ((h _).mp hc)]
      exact ih _ _ h
    · rw [if_neg hc, if_neg (fun hx => hc ((h _).mpr hx))]
      congr 1
      exact ih _ _ (fun k => by simp [List.mem_cons, h k])

theorem sorted_min_take_drop (t : Int) : ∀ (u : List Row),
    List.Sorted timeLE u → (∀ x ∈ u, t ≤ x.time) →
    u.takeWhile (timeIs t) = u.filter (timeIs t)
    ∧ u.dropWhile (timeIs t) = u.filter (fun r => !(timeIs t r)) := by
  intro u
  induction u with
  | nil => intro _ _; exact ⟨rfl, rfl⟩
  | cons y u ih =>
    intro hs hmin
    by_cases hy : y.time = t
    · have hYt : timeIs t y = true := by simp [timeIs, hy]
      obtain ⟨h1, h2⟩ := ih hs.of_cons (fun x hx => hmin x (List.mem_cons_of_mem _ hx))
      constructor
      · simp [List.takeWhile_cons, List.filter_cons, hYt, h1]
      · simp [List.dropWhile_cons, List.filter_cons, hYt, h2]
    · have hYf : timeIs t y = false := by simp [timeIs, hy]
      have hall : ∀ x ∈ y :: u, timeIs t x = false := by
        intro x hx
        rcases List.mem_cons.mp hx with rfl | h2
        · exact hYf
        · have h3 : y.time ≤ x.time := List.rel_of_sorted_cons hs x h2
          have h4 : t ≤ y.time := hmin y (List.mem_cons_self _ _)
          simp only [timeIs, decide_eq_false_iff_not]
          omega
      constructor
      · rw [List.takeWhile_cons]
        simp only [hYf, Bool.false_eq_true, if_false]
        exact (List.filter_eq_nil_iff.mpr (fun a ha hpa => by
          rw [hall a ha] at hpa
          cases hpa)).symm
      · rw [List.dropWhile_cons]
        simp only [hYf, Bool.false_eq_true, if_false]
        exact (List.filter_eq_self.mpr (fun a ha => by
          rw [hall a ha]
          rfl)).symm

theorem dropDupAux_doubling : ∀ (n : Nat) (s₂ sl : List Row) (seen : List ValKey),
    s₂.length ≤ n → List.Sorted timeLE s₂ → List.Sorted timeLE sl →
    (∀ t, s₂.filter (timeIs t) = sl.filter (timeIs t) ++ sl.filter (timeIs t)) →
    dropDupAux seen s₂ = dropDupAux seen sl := by
  intro n
  induction n with
  | zero =>
    intro s₂ sl seen hlen _ _ hF
    have h2 : s₂ = [] := List.length_eq_zero.mp (Nat.le_zero.mp hlen)
    subst h2
    have hnil : sl = [] := by
      cases hcase : sl with
      | nil => rfl
      | cons x sl' =>
        exfalso
        have hx : x ∈ List.filter (timeIs x.time) sl := by
          rw [hcase]
          exact List.mem_filter.mpr ⟨List.mem_cons_self _ _, by simp [timeIs]⟩
        have happ := hF x.time
        simp only [List.filter_nil] at happ
        rw [(List.append_eq_nil.mp happ.symm).1] at hx
        cases hx
    rw [hnil]
  | succ n ih =>
    intro s₂ sl seen hlen hs2 hsl hF
    cases hslc : sl with
    | nil =>
      subst hslc
      have h2 : s₂ = [] := by
        cases hcase : s₂ with
        | nil => rfl
        | cons x s' =>
          exfalso
          have hx : x ∈ List.filter (timeIs x.time) s₂ := by
            rw [hcase]
            exact List.mem_filter.mpr ⟨List.mem_cons_self _ _, by simp [timeIs]⟩
          have h0 := hF x.time
          simp only [List.filter_nil, List.append_nil] at h0
          rw [h0] at hx
          cases hx
      rw [h2]
    | cons x sl' =>
      subst hslc
      have hminl : ∀ z ∈ x :: sl', x.time ≤ z.time := by
        intro z hz
        rcases List.mem_cons.mp hz with rfl | h2
        · exact le_refl _
        · exact List.rel_of_sorted_cons hsl z h2
      have hmin2 : ∀ z ∈ s₂, x.time ≤ z.time := by
        intro z hz
        have hzf : z ∈ List.filter (timeIs z.time) s₂ :=
          List.mem_filter.mpr ⟨hz, by simp [timeIs]⟩
        rw [hF z.time] at hzf
        rcases List.mem_append.mp hzf with hzf | hzf
        · exact hminl z (List.mem_filter.mp hzf).1
        · exact hminl z (List.mem_filter.mp hzf).1
      obtain ⟨htw1, hdw1⟩ := sorted_min_take_drop x.time (x :: sl') hsl hminl
      obtain ⟨htw2, hdw2⟩ := sorted_min_take_drop x.time s₂ hs2 hmin2
      have hdecompl : x :: sl'
          = (x :: sl').filter (timeIs x.time)
            ++ (x :: sl').filter (fun r => !(timeIs x.time r)) := by
        conv_lhs => rw [← List.takeWhile_append_dropWhile (timeIs x.time) (x :: sl')]
        rw [htw1, hdw1]
      have hdecomp2 : s₂
          = ((x :: sl').filter (timeIs x.time) ++ (x :: sl').filter (timeIs x.time))
            ++ s₂.filter (fun r => !(timeIs x.time r)) := by
        conv_lhs => rw [← List.takeWhile_append_dropWhile (timeIs x.time) s₂]
        rw [htw2, hdw2, hF x.time]
      rw [hdecomp2]
      conv_rhs => rw [hdecompl]
      rw [List.append_assoc, dropDupAux_append, dropDupAux_append, dropDupAux_append]
      rw [dropDupAux_eq_nil ((x :: sl').filter (timeIs x.time)) _
        (fun y hy => vals_mem_seenAfter _ seen y hy)]
      rw [List.nil_append]
      congr 1
      rw [dropDupAux_congr (s₂.filter (fun r => !(timeIs x.time r)))
        (seenAfter (seenAfter seen ((x :: sl').filter (timeIs x.time)))
          ((x :: sl').filter (timeIs x.time)))
        (seenAfter seen ((x :: sl').filter (timeIs x.time)))
        (fun k => ⟨fun hk => by
            rcases mem_seenAfter_elim _ _ k hk with h | ⟨y, hy, hv⟩
            · exact h
            · exact hv ▸ vals_mem_seenAfter _ seen y hy,
          fun hk => mem_seenAfter_mono _ _ k hk⟩)]
      -- remaining: dedup of the two tails agree, by the induction hypothesis
      have hxB : x ∈ (x :: sl').filter (timeIs x.time) :=
        List.mem_filter.mpr ⟨List.mem_cons_self _ _, by simp [timeIs]⟩
      have hlen2 : s₂.length
          = ((x :: sl').filter (timeIs x.time)).length
            + ((x :: sl').filter (timeIs x.time)).length
            + (s₂.filter (fun r => !(timeIs x.time r))).length := by
        conv_lhs => rw [hdecomp2]
        simp [List.length_append]
        omega
      have hBpos : 0 < ((x :: sl').filter (timeIs x.time)).length :=
        List.length_pos.mpr (List.ne_nil_of_mem hxB)
      apply ih
      · omega
      · exact hs2.filter _
      · exact hsl.filter _
      · intro t
        by_cases ht : t = x.time
        · subst ht
          have hzero : ∀ u : List Row,
              (u.filter (fun r => !(timeIs x.time r))).filter (timeIs x.time) = [] := by
            intro u
            rw [List.filter_filter]
            apply List.filter_eq_nil_iff.mpr
            intro a _
            cases h : timeIs x.time a <;> simp [h]
          rw [hzero, hzero]
          rfl
        · have hred : ∀ u : List Row,
              (u.filter (fun r => !(timeIs x.time r))).filter (timeIs t)
                = u.filter (timeIs t) := by
            intro u
            rw [List.filter_filter]
            apply List.filter_congr
            intro a _
            cases ha : timeIs t a
            · simp [ha]
            · have hne : timeIs x.time a = false := by
                have hat : a.time = t := by simpa [timeIs] using ha
                simp only [timeIs, decide_eq_false_iff_not]
                omega
              simp [ha, hne]
          rw [hred, hred, hF t]

/-- C9 (amended): the assembly step is pure and deterministic (it is a
function of its inputs), and idempotent: assembling the concatenation of the
same chunk output twice — every record appearing twice — yields exactly the
Series obtained by assembling it once.  Duplicated identical records collapse
with the first-seen occurrence kept; records sharing only a timestamp do not
collapse (see the counterexample). -/
theorem C9_idempotent (s e : Int) (rows : List Row) :
    assemble s e (rows ++ rows) = assemble s e rows := by
  cases rows with
  | nil => rfl
  | cons r rs =>
    have key : drop_duplicates (sortRows (((r :: rs) ++ (r :: rs)).filter (inWindow s e)))
        = drop_duplicates (sortRows ((r :: rs).filter (inWindow s e))) := by
      rw [List.filter_append]
      exact dropDupAux_doubling
        (sortRows ((r :: rs).filter (inWindow s e)
          ++ (r :: rs).filter (inWindow s e))).length _ _ []
        (le_refl _) (sorted_sortRows _) (sorted_sortRows _)
        (fun t => by
          rw [filter_timeIs_sortRows, filter_timeIs_sortRows, List.filter_append])
    have h1 : ((r :: rs) ++ (r :: rs)).isEmpty = false := rfl
    have h2 : (r :: rs).isEmpty = false := rfl
    simp only [assemble, h1, h2, Bool.false_eq_true, if_false]
    rw [key]

end HistoricCrypto
